import Mathlib

/-!
# Verification of `extract_events.py` (facebook-event-scraper)

A shallow embedding of the CSV-timetable extraction script.  Python strings
are modelled as Lean `String` (operating on their `List Char` data), the
`re` module patterns used by the script are implemented as executable
character-list matchers with the exact leftmost-match / greedy semantics the
script relies on, and the `csv.DictReader` row model is embedded with its
documented `restval = None` behaviour for short rows.  Fallible code (the
`None.strip()` crash path) is modelled with `Except`.
-/

namespace ExtractEvents

/-- Python `str.isspace` on the ASCII whitespace characters that occur in
CSV text (`\x0b` and `\x0c` are vertical tab and form feed). -/
def pyIsSpace (c : Char) : Bool :=
  c = ' ' || c = '\t' || c = '\n' || c = '\r' || c = '\x0b' || c = '\x0c'

/-- Python regex `\w` (word character), ASCII model: alphanumeric or underscore. -/
def isWordChar (c : Char) : Bool :=
  c.isAlphanum || c = '_'

/-- Python `str.lower`, ASCII model (the script only compares against the
ASCII literal `b2b2b2b2b`). -/
def pyToLower (c : Char) : Char :=
  match c with
  | 'A' => 'a' | 'B' => 'b' | 'C' => 'c' | 'D' => 'd' | 'E' => 'e'
  | 'F' => 'f' | 'G' => 'g' | 'H' => 'h' | 'I' => 'i' | 'J' => 'j'
  | 'K' => 'k' | 'L' => 'l' | 'M' => 'm' | 'N' => 'n' | 'O' => 'o'
  | 'P' => 'p' | 'Q' => 'q' | 'R' => 'r' | 'S' => 's' | 'T' => 't'
  | 'U' => 'u' | 'V' => 'v' | 'W' => 'w' | 'X' => 'x' | 'Y' => 'y'
  | 'Z' => 'z' | c => c

/-- `str.strip()` on the character list: drop whitespace from both ends. -/
def stripList (cs : List Char) : List Char :=
  ((cs.dropWhile pyIsSpace).reverse.dropWhile pyIsSpace).reverse

/-- Python `str.strip()`. -/
def pyStrip (s : String) : String :=
  ⟨stripList s.data⟩

/-- Python `str.lstrip()`. -/
def pyLStrip (s : String) : String :=
  ⟨s.data.dropWhile pyIsSpace⟩

/-- Python `str.lower()` on a whole string (ASCII model). -/
def pyLower (s : String) : String :=
  ⟨s.data.map pyToLower⟩

/-- `List` prefix test by character equality. -/
def isPrefixL : List Char → List Char → Bool
  | [], _ => true
  | _ :: _, [] => false
  | a :: as, b :: bs => a = b && isPrefixL as bs

/-- Python `sub in s` substring test. -/
def isInfixL (pat : List Char) : List Char → Bool
  | [] => isPrefixL pat []
  | c :: rest => isPrefixL pat (c :: rest) || isInfixL pat rest

/-- Python `str.split()` (no argument): split on whitespace runs, dropping
empty pieces.  `acc` holds the current piece reversed. -/
def splitWsAux (acc : List Char) : List Char → List (List Char)
  | [] => if acc.isEmpty then [] else [acc.reverse]
  | c :: rest =>
    if pyIsSpace c then
      if acc.isEmpty then splitWsAux [] rest
      else acc.reverse :: splitWsAux [] rest
    else splitWsAux (c :: acc) rest

/-- Python `str.split()`. -/
def pySplitWs (s : String) : List String :=
  (splitWsAux [] s.data).map String.mk

/-- Python `str.split(sep)` for a one-character separator: keeps empty
pieces, `"".split(sep) == [""]`. -/
def splitCharAux (sep : Char) (acc : List Char) : List Char → List (List Char)
  | [] => [acc.reverse]
  | c :: rest =>
    if c = sep then acc.reverse :: splitCharAux sep [] rest
    else splitCharAux sep (c :: acc) rest

/-- Python `str.split("/")`. -/
def splitSlash (s : String) : List String :=
  (splitCharAux '/' [] s.data).map String.mk

/--
`parse_datetime` from the script:
convert `"YYYY/MM/DD HH:MM"` to `"YYYY-MM-DDTHH:MM"`, returning `""` for
empty or malformed input (the `ValueError` of the 3-tuple unpacking of
`date_part.split("/")` is caught and turned into `""`).
-/
def parse_datetime (dt_str : String) : String :=
  if pyStrip dt_str = "" then ""
  else
    match pySplitWs (pyStrip dt_str) with
    | [date_part, time_part] =>
      match splitSlash date_part with
      | [yyyy, mm, dd] => yyyy ++ "-" ++ mm ++ "-" ++ dd ++ "T" ++ time_part
      | _ => ""
    | _ => ""

/-!
## The split regex

`re.compile(r"\s*(?:B2B|B3B|F2F|VS|X|x|vs| & )\s*", re.IGNORECASE)` used by
`group_events` to split combined artist names.  `re.split` finds
non-overlapping matches left to right; at a candidate start position the
leading `\s*` is greedy (largest whitespace prefix first, backtracking
down), the alternation is tried in order, and the trailing `\s*` is greedy.
-/

/-- Try the alternation `B2B|B3B|F2F|VS|X|x|vs| & ` (case-insensitively, as
`re.IGNORECASE` makes the duplicated `X`/`x` and `VS`/`vs` alternatives
redundant) at the head of `cs`; return the number of characters matched. -/
def tokenAt (cs : List Char) : Option Nat :=
  match cs with
  | c1 :: c2 :: c3 :: _ =>
    if (c1 = 'B' || c1 = 'b') && c2 = '2' && (c3 = 'B' || c3 = 'b') then some 3
    else if (c1 = 'B' || c1 = 'b') && c2 = '3' && (c3 = 'B' || c3 = 'b') then some 3
    else if (c1 = 'F' || c1 = 'f') && c2 = '2' && (c3 = 'F' || c3 = 'f') then some 3
    else if (c1 = 'V' || c1 = 'v') && (c2 = 'S' || c2 = 's') then some 2
    else if c1 = 'X' || c1 = 'x' then some 1
    else if c1 = ' ' && c2 = '&' && c3 = ' ' then some 3
    else none
  | [c1, c2] =>
    if (c1 = 'V' || c1 = 'v') && (c2 = 'S' || c2 = 's') then some 2
    else if c1 = 'X' || c1 = 'x' then some 1
    else none
  | [c1] => if c1 = 'X' || c1 = 'x' then some 1 else none
  | [] => none

/-- Length of the leading whitespace run. -/
def wsCount (cs : List Char) : Nat :=
  (cs.takeWhile pyIsSpace).length

/-- Try to match the whole separator pattern at the head of `cs`, with the
leading `\s*` consuming exactly `k` characters, backtracking `k` downwards
(greedy).  Returns the total number of characters consumed (leading
whitespace + token + greedy trailing whitespace). -/
def trySepAux (cs : List Char) : Nat → Option Nat
  | 0 =>
    match tokenAt cs with
    | some t => some (t + wsCount (cs.drop t))
    | none => none
  | k + 1 =>
    match tokenAt (cs.drop (k + 1)) with
    | some t => some (k + 1 + t + wsCount (cs.drop (k + 1 + t)))
    | none => trySepAux cs k

/-- Match the separator pattern at the head of `cs` (leading `\s*` greedy). -/
def trySep (cs : List Char) : Option Nat :=
  trySepAux cs (wsCount cs)

/-- `re.split` scan: find matches left to right, cut the string at each
match.  `acc` is the current piece reversed; `fuel` bounds the recursion
(every step consumes at least one character, so `cs.length + 1` is enough;
the fuel-exhausted fallback is unreachable). -/
def splitScan (fuel : Nat) (acc : List Char) (cs : List Char) : List (List Char) :=
  match fuel, cs with
  | 0, cs => [acc.reverse ++ cs]
  | _ + 1, [] => [acc.reverse]
  | f + 1, c :: rest =>
    match trySep (c :: rest) with
    | some n => acc.reverse :: splitScan f [] ((c :: rest).drop n)
    | none => splitScan f (c :: acc) rest

/-- `split_regex.split(s)` from `group_events`. -/
def splitRegexSplit (s : String) : List String :=
  (splitScan (s.data.length + 1) [] s.data).map String.mk

/-!
## Suffix stripping: `clean_name`

`SUFFIX_PATTERN = re.compile(r"\s+(A/V|\(live\))$", re.IGNORECASE)`;
`clean_name` is `SUFFIX_PATTERN.sub("", name).strip()`.  Python's `$`
(without `re.MULTILINE`) matches at the end of the string and also just
before a single trailing newline, so both anchor positions are modelled.
-/

/-- Leading whitespace-run length, `none` when there is none (`\s+` needs at
least one whitespace character). -/
def wsPlus (cs : List Char) : Option Nat :=
  let k := wsCount cs
  if k = 0 then none else some k

/-- Match `\s+(A/V|\(live\))` against the end of the string, given the
string reversed; returns how many characters the match covers.  The `\s+`
is greedy and `re.sub` removes the leftmost match, so the whole whitespace
run before the suffix is consumed. -/
def suffixRevMatch (r : List Char) : Option Nat :=
  match r with
  | c1 :: c2 :: c3 :: c4 :: c5 :: c6 :: rest =>
    if (c1 = 'V' || c1 = 'v') && c2 = '/' && (c3 = 'A' || c3 = 'a') then
      (wsPlus (c4 :: c5 :: c6 :: rest)).map (· + 3)
    else if c1 = ')' && (c2 = 'E' || c2 = 'e') && (c3 = 'V' || c3 = 'v') &&
        (c4 = 'I' || c4 = 'i') && (c5 = 'L' || c5 = 'l') && c6 = '(' then
      (wsPlus rest).map (· + 6)
    else none
  | c1 :: c2 :: c3 :: rest =>
    if (c1 = 'V' || c1 = 'v') && c2 = '/' && (c3 = 'A' || c3 = 'a') then
      (wsPlus rest).map (· + 3)
    else none
  | _ => none

/-- `SUFFIX_PATTERN.sub("", ·)` on the character list.  The match may end at
the absolute end of the string or just before a single trailing newline. -/
def subSuffix (cs : List Char) : List Char :=
  match cs.reverse with
  | '\n' :: core =>
    match suffixRevMatch core with
    | some n => (core.drop n).reverse ++ ['\n']
    | none => cs
  | r =>
    match suffixRevMatch r with
    | some n => (r.drop n).reverse
    | none => cs

/-- `clean_name` from the script: remove one trailing `A/V` / `(live)`
suffix, then `strip()`. -/
def clean_name (name : String) : String :=
  pyStrip ⟨subSuffix name.data⟩

/-!
## Mode detection: `detect_mode`

`MODE_PATTERN = re.compile(r"\b(B2B|B3B|F2F|VS)\b")` (case-sensitive);
`detect_mode` returns the first (leftmost) match or `""`.  All alternatives
start and end with word characters, so the leading `\b` holds iff the
previous character is absent or not a word character, and the trailing `\b`
holds iff the next character is absent or not a word character.
-/

/-- Trailing word-boundary test: the rest of the string is empty or starts
with a non-word character. -/
def boundaryOk (rest : List Char) : Bool :=
  match rest with
  | [] => true
  | c :: _ => !isWordChar c

/-- Try `(B2B|B3B|F2F|VS)\b` (case-sensitive, alternation order as in the
pattern) at the head of `cs`.  At most one alternative can content-match at
a position, so a failed trailing boundary fails the whole position. -/
def modeAt (cs : List Char) : Option String :=
  match cs with
  | c1 :: c2 :: c3 :: rest =>
    if c1 = 'B' && c2 = '2' && c3 = 'B' && boundaryOk rest then some "B2B"
    else if c1 = 'B' && c2 = '3' && c3 = 'B' && boundaryOk rest then some "B3B"
    else if c1 = 'F' && c2 = '2' && c3 = 'F' && boundaryOk rest then some "F2F"
    else if c1 = 'V' && c2 = 'S' && boundaryOk (c3 :: rest) then some "VS"
    else none
  | [c1, c2] =>
    if c1 = 'V' && c2 = 'S' then some "VS" else none
  | _ => none

/-- Leftmost-match scan for `MODE_PATTERN.search`; `prevWord` records
whether the previous character is a word character (initially `false`, as
the string start is a valid boundary position). -/
def modeScan (prevWord : Bool) : List Char → Option String
  | [] => none
  | c :: rest =>
    match (if prevWord then none else modeAt (c :: rest)) with
    | some m => some m
    | none => modeScan (isWordChar c) rest

/-- `detect_mode` from the script. -/
def detect_mode (name : String) : String :=
  (modeScan false name.data).getD ""

/-!
## Data model and `group_events`
-/

/-- A valid CSV data row (`{"start": ..., "end": ..., "name": ..., "stage": ...}`
in the script); `end` is a Lean keyword, hence `end_`. -/
structure RawRow where
  start : String
  end_ : String
  name : String
  stage : String
deriving DecidableEq, Repr

/-- One merged output record as built by `group_events` (before `to_json`
adds the constant `artist_id`/`soundcloud` placeholders).  `custom_name` is
the optional key only present in the split branch. -/
structure OutputEvent where
  name : String
  time : String
  end_time : String
  stage : String
  performance_mode : String
  custom_name : Option String
deriving DecidableEq, Repr

/-- The split list produced in `group_events`'s non-exception branch:
`[clean_name(n) for n in split_regex.split(combined_name) if clean_name(n)]`
(the comprehension keeps `clean_name(n)` for the pieces whose cleaned form
is non-empty). -/
def splitArtists (combined : String) : List String :=
  ((splitRegexSplit combined).map clean_name).filter (fun s => !(s = ""))

/-- The body of the inner loop of `group_events` for one raw name of a slot
`(start, end, stage)`: the `b2b2b2b2b` exception, the split, and the two
emission branches. -/
def emitName (start end_ stage combined : String) : List OutputEvent :=
  let split_artists :=
    if pyLower (pyStrip combined) = "b2b2b2b2b" then [clean_name combined]
    else splitArtists combined
  if split_artists.length > 1 then
    split_artists.map (fun n =>
      { name := n
        time := parse_datetime start
        end_time := parse_datetime end_
        stage := stage
        performance_mode := "B2B"
        custom_name := some (clean_name combined) })
  else
    [{ name := clean_name combined
       time := parse_datetime start
       end_time := parse_datetime end_
       stage := stage
       performance_mode := detect_mode combined
       custom_name := none }]

/-- The grouping key `(ev["start"], ev["end"], ev["stage"])`. -/
abbrev SlotKey := String × String × String

/-- Append a name to its slot's list in the insertion-ordered dictionary
(`defaultdict(list)` keeps keys in first-insertion order and appends at the
end of each list). -/
def insertGrouped (k : SlotKey) (n : String) :
    List (SlotKey × List String) → List (SlotKey × List String)
  | [] => [(k, [n])]
  | (k', ns) :: rest =>
    if k' = k then (k', ns ++ [n]) :: rest
    else (k', ns) :: insertGrouped k n rest

/-- The `grouped` dictionary of `group_events`, as an insertion-ordered
association list. -/
def groupPairs (events : List RawRow) : List (SlotKey × List String) :=
  events.foldl (fun g ev => insertGrouped (ev.start, ev.end_, ev.stage) ev.name g) []

/-- Emission of all the names of one slot. -/
def emitGroup (kns : SlotKey × List String) : List OutputEvent :=
  kns.2.flatMap (fun n => emitName kns.1.1 kns.1.2.1 kns.1.2.2 n)

/-- `group_events` from the script: group rows by `(start, end, stage)`,
then split and emit every raw name of every slot. -/
def group_events (events : List RawRow) : List OutputEvent :=
  (groupPairs events).flatMap emitGroup

/-- The per-row emission without any grouping: the reference point of the
grouping-neutrality claim. -/
def emitRow (r : RawRow) : List OutputEvent :=
  emitName r.start r.end_ r.stage r.name

/-!
## Sorting

`merged.sort(key=lambda x: (x["time"], x["stage"]))`: Python's stable sort
by the lexicographic order on the pair of strings (strings compare by code
points, which is `String`'s linear order).
-/

/-- Strict lexicographic comparison of character lists by code point:
Python compares strings code point by code point. -/
def listLt : List Char → List Char → Bool
  | [], [] => false
  | [], _ :: _ => true
  | _ :: _, [] => false
  | a :: as, b :: bs => if a = b then listLt as bs else decide (a.toNat < b.toNat)

/-- Python `s < t` on strings. -/
def strLt (a b : String) : Bool :=
  listLt a.data b.data

/-- Python `s <= t` on strings. -/
def strLe (a b : String) : Bool :=
  strLt a b || a = b

/-- The sort key comparison: `(a.time, a.stage) <= (b.time, b.stage)`
lexicographically.  A stable sort with this total preorder is exactly what
`list.sort(key=...)` produces. -/
def keyLE (a b : OutputEvent) : Prop :=
  strLt a.time b.time = true ∨ (a.time = b.time ∧ strLe a.stage b.stage = true)

instance (a b : OutputEvent) : Decidable (keyLE a b) := by
  unfold keyLE; infer_instance

/-- Strict version of the key comparison. -/
def keyLT (a b : OutputEvent) : Prop :=
  strLt a.time b.time = true ∨ (a.time = b.time ∧ strLt a.stage b.stage = true)

instance (a b : OutputEvent) : Decidable (keyLT a b) := by
  unfold keyLT; infer_instance

/-- `merged.sort(key=lambda x: (x["time"], x["stage"]))`.  Python's sort is
the stable sort by the total preorder `keyLE`; the stable sort of a list by
a total preorder is unique, so any stable sorting algorithm models it —
insertion sort is used because it is structurally recursive and hence
computable by the kernel. -/
def sortEvents (l : List OutputEvent) : List OutputEvent :=
  l.insertionSort keyLE

/-!
## `load_csv`

The file is modelled as its list of lines (line terminators already
consumed, as `csv.reader` never hands them to field values).  The comment
pass, the header scan and the per-row field extraction follow the script;
the CSV line parsing is modelled as comma-splitting (the default dialect
without quoted fields), and `csv.DictReader` is modelled with its
documented behaviour: fieldnames from the first row, blank rows skipped,
extra values dropped (they go to `restkey`), and *missing values filled
with `restval = None`* — on which `row.get(field, "").strip()` raises
`AttributeError`, modelled as `Except.error ()`.
-/

/-- The comment pass of `load_csv`: if the left-stripped line starts with
`//`, drop the marker and following whitespace; otherwise keep the line
unchanged. -/
def stripCommentLine (line : String) : String :=
  let stripped := pyLStrip line
  if isPrefixL "//".data stripped.data then pyLStrip ⟨stripped.data.drop 2⟩
  else line

/-- The header signature: the stripped line starts with `"Start,"` and the
line contains `"End"`, `"Name"` and `"Location"` as substrings. -/
def isHeaderLine (line : String) : Bool :=
  isPrefixL "Start,".data (pyStrip line).data &&
    isInfixL "End".data line.data &&
    isInfixL "Name".data line.data &&
    isInfixL "Location".data line.data

/-- CSV line parsing for the default dialect without quoting: a blank line
is the empty row `[]`, otherwise split on commas. -/
def parseCsvLine (l : String) : List String :=
  if l = "" then []
  else (splitCharAux ',' [] l.data).map String.mk

/-- `dict(zip(fieldnames, row))` with `DictReader`'s padding: extra values
are dropped (they go under `restkey`), missing values become `none`
(Python `None`, the default `restval`). -/
def mkRecord (fields : List String) (vals : List String) : List (String × Option String) :=
  match fields, vals with
  | [], _ => []
  | f :: fs, [] => (f, Option.none) :: mkRecord fs []
  | f :: fs, v :: vs => (f, some v) :: mkRecord fs vs

/-- Python `dict` lookup on the association list: duplicate keys overwrite,
so the *last* binding wins; `Option.none` when the key is absent. -/
def dictGet (record : List (String × Option String)) (k : String) :
    Option (Option String) :=
  match record with
  | [] => Option.none
  | (k', v) :: rest =>
    match dictGet rest k with
    | some r => some r
    | Option.none => if k' = k then some v else Option.none

/-- `row.get(k, "").strip()`: a missing key yields the default `""` (whose
strip is `""`), a key bound to `None` raises `AttributeError`
(`None.strip()`), a string value is stripped. -/
def pyGetStrip (record : List (String × Option String)) (k : String) :
    Except Unit String :=
  match dictGet record k with
  | Option.none => .ok ""
  | some Option.none => .error ()
  | some (some v) => .ok (pyStrip v)

/-- The body of the row loop of `load_csv`: extract and strip the four
fields, drop the row when any is empty. -/
def rowExtract (record : List (String × Option String)) :
    Except Unit (Option RawRow) := do
  let start ← pyGetStrip record "Start"
  let end_ ← pyGetStrip record "End"
  let name ← pyGetStrip record "Name"
  let stage ← pyGetStrip record "Location"
  if start = "" || end_ = "" || name = "" || stage = "" then
    return Option.none
  else
    return some { start := start, end_ := end_, name := name, stage := stage }

/-- The `DictReader` row loop: parse each line, skip blank rows, extract
fields, collect the valid rows in order.  The first raised exception aborts
`load_csv` (and the whole script). -/
def readRows (fields : List String) : List String → Except Unit (List RawRow)
  | [] => .ok []
  | l :: rest =>
    let vals := parseCsvLine l
    if vals.isEmpty then readRows fields rest
    else do
      let r? ← rowExtract (mkRecord fields vals)
      let rs ← readRows fields rest
      return (match r? with | some r => r :: rs | Option.none => rs)

/-- `load_csv` from the script, on the file's lines.  The first component
of the result is the list of messages printed to `stderr`. -/
def load_csv (lines : List String) : Except Unit (List String × List RawRow) :=
  let processed := lines.map stripCommentLine
  match processed.findIdx? (fun l => isHeaderLine l) with
  | Option.none => .ok (["Error: CSV header row not found."], [])
  | some i =>
    match processed.drop i with
    | [] => .ok ([], [])
    | header :: rest => (readRows (parseCsvLine header) rest).map (fun evs => ([], evs))

/-- The whole pipeline of `main` up to serialization: load, group, sort.
(`main` additionally exits with an error message when no valid rows were
found; the event list is `[]` in that case.) -/
def pipeline (lines : List String) : Except Unit (List String × List OutputEvent) :=
  (load_csv lines).map (fun p => (p.1, sortEvents (group_events p.2)))

instance {ε α : Type} [DecidableEq ε] [DecidableEq α] : DecidableEq (Except ε α) :=
  fun x y =>
    match x, y with
    | .ok a, .ok b => decidable_of_iff (a = b) (by simp)
    | .error e, .error f => decidable_of_iff (e = f) (by simp)
    | .ok _, .error _ => isFalse (fun h => Except.noConfusion h)
    | .error _, .ok _ => isFalse (fun h => Except.noConfusion h)

end ExtractEvents

namespace ExtractEvents

example : parse_datetime "2024/07/13 18:30" = "2024-07-13T18:30" := by decide
example : parse_datetime "garbage" = "" := by decide
example : parse_datetime "  " = "" := by decide
example : parse_datetime "2024/13/40 99:99" = "2024-13-40T99:99" := by decide
example : parse_datetime "2024/07 13 18:30" = "" := by decide

example : clean_name "DJ Test A/V" = "DJ Test" := by decide
example : clean_name "DJ Test (Live)" = "DJ Test" := by decide
example : clean_name "x (live) (live)" = "x (live)" := by decide
example : detect_mode "Solo Set VS" = "VS" := by decide
example : detect_mode "B2B2B2B2B" = "" := by decide
example : detect_mode "A B3B B and F2F" = "B3B" := by decide
example : splitRegexSplit "Artist A B2B Artist B" = ["Artist A", "Artist B"] := by decide
example : splitRegexSplit "B2B2B2B2B" = ["", "2", "2B"] := by decide
example : splitRegexSplit "A & B" = ["A", "B"] := by decide
example : splitRegexSplit "A  &  B" = ["A", "B"] := by decide
example : splitRegexSplit "Max Power" = ["Ma", "Power"] := by decide
example : splitRegexSplit "Solo Set VS" = ["Solo Set", ""] := by decide

-- end-to-end sanity checks of the pipeline embedding
example :
    pipeline ["// some note", "Start,End,Name,Location",
      "2024/07/13 18:00,2024/07/13 19:00,DJ X B2B DJ Y,Main Stage"] =
    .ok ([],
      [{ name := "DJ", time := "2024-07-13T18:00", end_time := "2024-07-13T19:00",
         stage := "Main Stage", performance_mode := "B2B",
         custom_name := some "DJ X B2B DJ Y" },
       { name := "DJ Y", time := "2024-07-13T18:00", end_time := "2024-07-13T19:00",
         stage := "Main Stage", performance_mode := "B2B",
         custom_name := some "DJ X B2B DJ Y" }]) := by decide

example :
    load_csv ["Start,End,Name,Location", "a,b"] = .error () := by decide

example :
    load_csv ["no header here"] =
      .ok (["Error: CSV header row not found."], []) := by decide

/-!
## Supporting lemmas
-/

theorem pySplitWs_empty : pySplitWs "" = [] := by decide

theorem dropWhile_idem {α : Type} {p : α → Bool} (l : List α) :
    (l.dropWhile p).dropWhile p = l.dropWhile p := by
  induction l with
  | nil => rfl
  | cons a l ih =>
    by_cases h : p a
    · simp [List.dropWhile_cons, h, ih]
    · simp [List.dropWhile_cons, h]

theorem dropWhile_eq_self_of_starts {α : Type} {p : α → Bool} {A B : List α}
    (hA : A.dropWhile p = A) (hBA : B <+: A) : B.dropWhile p = B := by
  obtain ⟨t, rfl⟩ := hBA
  cases B with
  | nil => rfl
  | cons b bs =>
    rw [List.cons_append, List.dropWhile_cons] at hA
    by_cases hp : p b
    · exfalso
      rw [if_pos hp] at hA
      have hle := ((List.dropWhile_suffix p (l := bs ++ t)).sublist).length_le
      have hlen := congrArg List.length hA
      simp only [List.length_cons] at hlen
      omega
    · simp [List.dropWhile_cons, hp]

/-- `strip()` is idempotent. -/
theorem stripList_idem (l : List Char) : stripList (stripList l) = stripList l := by
  unfold stripList
  have hA : (l.dropWhile pyIsSpace).dropWhile pyIsSpace = l.dropWhile pyIsSpace :=
    dropWhile_idem l
  have hpre :
      ((l.dropWhile pyIsSpace).reverse.dropWhile pyIsSpace).reverse <+:
        l.dropWhile pyIsSpace := by
    have hsuf : (l.dropWhile pyIsSpace).reverse.dropWhile pyIsSpace <:+
        (l.dropWhile pyIsSpace).reverse := List.dropWhile_suffix pyIsSpace
    have := List.reverse_prefix.mpr hsuf
    simpa using this
  rw [dropWhile_eq_self_of_starts hA hpre, List.reverse_reverse, dropWhile_idem]

theorem pyStrip_idem (s : String) : pyStrip (pyStrip s) = pyStrip s := by
  unfold pyStrip
  rw [stripList_idem]

theorem wsPlus_inv {l : List Char} {k : Nat} (h : wsPlus l = some k) :
    k = wsCount l ∧ 1 ≤ k := by
  simp only [wsPlus] at h
  by_cases h0 : wsCount l = 0
  · rw [if_pos h0] at h
    exact Option.noConfusion h
  · rw [if_neg h0] at h
    have := Option.some.inj h
    omega

theorem suffixRevMatch_inv {r : List Char} {n : Nat} (h : suffixRevMatch r = some n) :
    ∃ tok rest k, r = tok ++ rest ∧ tok ≠ [] ∧ tok.length + k = n ∧
      wsPlus rest = some k := by
  rcases r with _ | ⟨c1, _ | ⟨c2, _ | ⟨c3, _ | ⟨c4, _ | ⟨c5, _ | ⟨c6, rest⟩⟩⟩⟩⟩⟩
  · simp [suffixRevMatch] at h
  · simp [suffixRevMatch] at h
  · simp [suffixRevMatch] at h
  · simp only [suffixRevMatch] at h
    split_ifs at h with h1
    · rw [Option.map_eq_some'] at h
      obtain ⟨k, hk, hn⟩ := h
      exact ⟨[c1, c2, c3], [], k, rfl, by simp, by simp only [List.length_cons, List.length_nil]; omega, hk⟩
  · simp only [suffixRevMatch] at h
    split_ifs at h with h1
    · rw [Option.map_eq_some'] at h
      obtain ⟨k, hk, hn⟩ := h
      exact ⟨[c1, c2, c3], [c4], k, rfl, by simp, by simp only [List.length_cons, List.length_nil]; omega, hk⟩
  · simp only [suffixRevMatch] at h
    split_ifs at h with h1
    · rw [Option.map_eq_some'] at h
      obtain ⟨k, hk, hn⟩ := h
      exact ⟨[c1, c2, c3], [c4, c5], k, rfl, by simp, by simp only [List.length_cons, List.length_nil]; omega, hk⟩
  · simp only [suffixRevMatch] at h
    split_ifs at h with h1 h2
    · rw [Option.map_eq_some'] at h
      obtain ⟨k, hk, hn⟩ := h
      exact ⟨[c1, c2, c3], c4 :: c5 :: c6 :: rest, k, rfl, by simp, by simp only [List.length_cons, List.length_nil]; omega, hk⟩
    · rw [Option.map_eq_some'] at h
      obtain ⟨k, hk, hn⟩ := h
      exact ⟨[c1, c2, c3, c4, c5, c6], rest, k, rfl, by simp, by simp only [List.length_cons, List.length_nil]; omega, hk⟩


/-!
## Claims
-/

/-- **C3.** `parse_datetime` maps every input of the form `"YYYY/MM/DD HH:MM"`
(after trimming, exactly two whitespace-separated tokens, the first having
exactly three `/`-separated components) to `"YYYY-MM-DDTHH:MM"` with no
calendar validity checking, and returns the empty string for empty or
whitespace-only input, for input that does not split into exactly two
whitespace tokens, and for a date token that does not split into exactly
three `/`-separated components. -/
theorem C3_parse_datetime_spec (s : String) :
    (pyStrip s = "" → parse_datetime s = "") ∧
    ((pySplitWs (pyStrip s)).length ≠ 2 → parse_datetime s = "") ∧
    (∀ dp tp, pySplitWs (pyStrip s) = [dp, tp] →
      (((splitSlash dp).length ≠ 3 → parse_datetime s = "") ∧
        (∀ y m d, splitSlash dp = [y, m, d] →
          parse_datetime s = y ++ "-" ++ m ++ "-" ++ d ++ "T" ++ tp))) := by
  refine ⟨fun h => by simp [parse_datetime, h], fun h => ?_, fun dp tp hsp => ?_⟩
  · by_cases he : pyStrip s = ""
    · simp [parse_datetime, he]
    · unfold parse_datetime
      rw [if_neg he]
      rcases hl : pySplitWs (pyStrip s) with _ | ⟨a, _ | ⟨b, _ | ⟨c, l⟩⟩⟩
      · rfl
      · rfl
      · exact absurd (by rw [hl]; rfl) h
      · rfl
  · have he : pyStrip s ≠ "" := by
      intro he
      rw [he, pySplitWs_empty] at hsp
      exact List.noConfusion hsp
    constructor
    · intro h3
      unfold parse_datetime
      rw [if_neg he, hsp]
      show (match splitSlash dp with
        | [yyyy, mm, dd] => yyyy ++ "-" ++ mm ++ "-" ++ dd ++ "T" ++ tp
        | _ => "") = ""
      rcases hss : splitSlash dp with _ | ⟨a, _ | ⟨b, _ | ⟨c, _ | ⟨d, l⟩⟩⟩⟩
      · rfl
      · rfl
      · rfl
      · exact absurd (by rw [hss]; rfl) h3
      · rfl
    · intro y m d hss
      unfold parse_datetime
      rw [if_neg he, hsp]
      show (match splitSlash dp with
        | [yyyy, mm, dd] => yyyy ++ "-" ++ mm ++ "-" ++ dd ++ "T" ++ tp
        | _ => "") = y ++ "-" ++ m ++ "-" ++ d ++ "T" ++ tp
      rw [hss]

/-- Witness for C3 at the spec's example input. -/
theorem C3_parse_datetime_spec_witness :
    parse_datetime "2024/07/13 18:30" = "2024-07-13T18:30" :=
  ((C3_parse_datetime_spec "2024/07/13 18:30").2.2 "2024/07/13" "18:30"
    (by decide)).2 "2024" "07" "13" (by decide)

/-- A single-row input produces exactly the per-name emission of that row. -/
theorem group_events_singleton (r : RawRow) :
    group_events [r] = emitName r.start r.end_ r.stage r.name := by
  simp [group_events, groupPairs, insertGrouped, emitGroup]

/-- A strip fixed point is a fixed point of both one-sided trims. -/
theorem stripList_eq_self_parts {cs : List Char} (h : stripList cs = cs) :
    cs.dropWhile pyIsSpace = cs ∧ cs.reverse.dropWhile pyIsSpace = cs.reverse := by
  have h1 : cs.length ≤ (cs.dropWhile pyIsSpace).length := by
    conv_lhs => rw [← h]
    unfold stripList
    rw [List.length_reverse]
    have := (List.dropWhile_suffix pyIsSpace
      (l := (cs.dropWhile pyIsSpace).reverse)).sublist.length_le
    simpa using this
  have hA : cs.dropWhile pyIsSpace = cs :=
    (List.dropWhile_suffix _).eq_of_length_le h1
  refine ⟨hA, ?_⟩
  have h2 : stripList cs = (cs.reverse.dropWhile pyIsSpace).reverse := by
    unfold stripList
    rw [hA]
  rw [h] at h2
  have h3 := congrArg List.reverse h2
  simpa using h3.symm

theorem stripped_head_not_ws {cs : List Char} (h : cs.dropWhile pyIsSpace = cs)
    (c : Char) (rest : List Char) (hcs : cs = c :: rest) : pyIsSpace c = false := by
  subst hcs
  by_cases hw : pyIsSpace c
  · exfalso
    rw [List.dropWhile_cons_of_pos hw] at h
    have hle := (List.dropWhile_suffix pyIsSpace (l := rest)).sublist.length_le
    have := congrArg List.length h
    simp only [List.length_cons] at this
    omega
  · simpa using hw

/-- A list containing a non-whitespace character does not strip to `[]`. -/
theorem stripList_ne_nil_of_mem {l : List Char} {x : Char} (hx : x ∈ l)
    (hxw : pyIsSpace x = false) : stripList l ≠ [] := by
  intro h
  unfold stripList at h
  rw [List.reverse_eq_nil_iff, List.dropWhile_eq_nil_iff] at h
  have hx2 : x ∈ l.takeWhile pyIsSpace ++ l.dropWhile pyIsSpace := by
    rw [List.takeWhile_append_dropWhile]
    exact hx
  have hx3 : x ∈ l.dropWhile pyIsSpace := by
    rcases List.mem_append.mp hx2 with h1 | h2
    · exact absurd (List.mem_takeWhile_imp h1) (by simp [hxw])
    · exact h2
  have := h x (List.mem_reverse.mpr hx3)
  rw [hxw] at this
  exact Bool.noConfusion this

/-- The key invariant behind non-empty output names: removing the suffix
match from a stripped non-empty string and re-stripping cannot give the
empty string, because the head character is not whitespace and survives. -/
theorem stripList_subSuffix_ne_nil {cs : List Char} (hs : stripList cs = cs)
    (hne : cs ≠ []) : stripList (subSuffix cs) ≠ [] := by
  obtain ⟨hA, hR⟩ := stripList_eq_self_parts hs
  obtain ⟨c0, t, rfl⟩ : ∃ c0 t, cs = c0 :: t := by
    cases cs with
    | nil => exact absurd rfl hne
    | cons a b => exact ⟨a, b, rfl⟩
  have hc0 : pyIsSpace c0 = false := stripped_head_not_ws hA c0 t rfl
  rw [subSuffix.eq_def]
  split
  · -- the reversed string starts with a newline: impossible, the string is
    -- stripped so its last character is not whitespace
    rename_i core heq
    have := stripped_head_not_ws hR '\n' core heq
    simp [pyIsSpace] at this
  · rename_i r hnl
    split
    · -- a suffix match of length `n` is removed from the end
      rename_i n heq2
      obtain ⟨tok, rest, k, hrtok, htokne, hnk, hwsp⟩ := suffixRevMatch_inv heq2
      obtain ⟨hkeq, hk1⟩ := wsPlus_inv hwsp
      have hdrop : ((c0 :: t).reverse).drop n = rest.dropWhile pyIsSpace := by
        rw [hrtok, ← hnk, ← List.drop_drop, List.drop_left]
        have hsplit : rest.drop k =
            (rest.takeWhile pyIsSpace ++ rest.dropWhile pyIsSpace).drop k := by
          rw [List.takeWhile_append_dropWhile]
        rw [hsplit, List.drop_left' hkeq.symm]
      by_cases hrest : rest.dropWhile pyIsSpace = []
      · -- everything after the removed token is whitespace: then the head
        -- of the original string would be whitespace, contradiction
        exfalso
        rw [List.dropWhile_eq_nil_iff] at hrest
        have hcs : c0 :: t = rest.reverse ++ tok.reverse := by
          have h4 := congrArg List.reverse hrtok
          simpa [List.reverse_append] using h4
        have hrestne : rest ≠ [] := by
          intro h0
          rw [h0] at hkeq
          simp [wsCount] at hkeq
          omega
        obtain ⟨y, ys, hy⟩ : ∃ y ys, rest.reverse = y :: ys := by
          cases hrw : rest.reverse with
          | nil => exact absurd (List.reverse_eq_nil_iff.mp hrw) hrestne
          | cons y ys => exact ⟨y, ys, rfl⟩
        rw [hy, List.cons_append] at hcs
        injection hcs with hc0y hrest2
        have hymem : y ∈ rest := List.mem_reverse.mp (by rw [hy]; exact List.mem_cons_self _ _)
        have hws := hrest y hymem
        rw [← hc0y, hc0] at hws
        exact Bool.noConfusion hws
      · -- a non-whitespace character survives the removal
        obtain ⟨z, zs, hz⟩ : ∃ z zs, rest.dropWhile pyIsSpace = z :: zs := by
          cases hdw : rest.dropWhile pyIsSpace with
          | nil => exact absurd hdw hrest
          | cons z zs => exact ⟨z, zs, rfl⟩
        have hznw : pyIsSpace z = false := by
          have hw := List.head?_dropWhile_not pyIsSpace rest
          rw [hz] at hw
          simpa using hw
        apply stripList_ne_nil_of_mem (x := z) _ hznw
        rw [List.mem_reverse, hdrop, hz]
        exact List.mem_cons_self _ _
    · -- no match: the string is returned unchanged
      rw [hs]
      simp

/-- `clean_name` of a stripped non-empty string is non-empty. -/
theorem clean_name_ne_empty {s : String} (hs : pyStrip s = s) (hne : s ≠ "") :
    clean_name s ≠ "" := by
  have hdata : stripList s.data = s.data := congrArg String.data hs
  have hdne : s.data ≠ [] := by
    intro h0
    exact hne (String.ext (h0.trans rfl))
  have hmain := stripList_subSuffix_ne_nil hdata hdne
  intro h
  exact hmain (congrArg String.data h)

/-- Every name emitted for a stripped, non-empty raw name is non-empty. -/
theorem emitName_names {start end_ stage n : String} (hst : pyStrip n = n)
    (hne : n ≠ "") : ∀ ev ∈ emitName start end_ stage n, ev.name ≠ "" := by
  intro ev hev
  unfold emitName at hev
  by_cases hexc : pyLower (pyStrip n) = "b2b2b2b2b"
  · rw [if_pos hexc] at hev
    rw [if_neg (by simp)] at hev
    rcases List.mem_singleton.mp hev with rfl
    exact clean_name_ne_empty hst hne
  · rw [if_neg hexc] at hev
    by_cases hlen : (splitArtists n).length > 1
    · rw [if_pos hlen] at hev
      obtain ⟨x, hx, rfl⟩ := List.mem_map.mp hev
      have := List.of_mem_filter hx
      simpa using this
    · rw [if_neg hlen] at hev
      rcases List.mem_singleton.mp hev with rfl
      exact clean_name_ne_empty hst hne

/-- **C1 counterexample.**  The raw name `"B2B2B2B2B"` splits on the
separator tokens into the two non-empty suffix-stripped pieces
`["2", "2B"]`, yet `group_events` emits a single `OutputEvent` for it (the
code's explicit exception), so the claim "one OutputEvent per piece" fails
at this input. -/
theorem C1_counterexample :
    (splitArtists "B2B2B2B2B").length > 1 ∧
      (group_events
        [{ start := "2024/07/13 18:00", end_ := "2024/07/13 19:00",
           name := "B2B2B2B2B", stage := "Main Stage" }]).length = 1 := by
  decide

/-- **C1 (amended).**  For every raw name in a slot — other than a name
whose trimmed, lowercased form is the literal `b2b2b2b2b` — whose splitting
on the separator tokens yields more than one non-empty suffix-stripped
piece, `group_events` emits exactly one `OutputEvent` per piece; all these
events share the same `time`, `end_time` and `stage`, every one has
`performance_mode = "B2B"` regardless of which separator matched, and every
one carries `custom_name` equal to the suffix-stripped form of the
original, unsplit combined name. -/
theorem C1_split_emission (start end_ stage combined : String)
    (hexc : pyLower (pyStrip combined) ≠ "b2b2b2b2b")
    (hlen : (splitArtists combined).length > 1) :
    group_events [{ start := start, end_ := end_, name := combined, stage := stage }] =
      (splitArtists combined).map (fun n =>
        { name := n
          time := parse_datetime start
          end_time := parse_datetime end_
          stage := stage
          performance_mode := "B2B"
          custom_name := some (clean_name combined) }) := by
  rw [group_events_singleton]
  unfold emitName
  simp only [if_neg hexc]
  rw [if_pos hlen]

/-- Witness for C1 (amended) at the spec's own splitting example. -/
theorem C1_split_emission_witness :
    pyLower (pyStrip "Artist A B2B Artist B") ≠ "b2b2b2b2b" ∧
      (splitArtists "Artist A B2B Artist B").length > 1 ∧
      group_events
          [{ start := "2024/07/13 18:00", end_ := "2024/07/13 19:00",
             name := "Artist A B2B Artist B", stage := "Main Stage" }] =
        [{ name := "Artist A", time := "2024-07-13T18:00",
           end_time := "2024-07-13T19:00", stage := "Main Stage",
           performance_mode := "B2B",
           custom_name := some "Artist A B2B Artist B" },
         { name := "Artist B", time := "2024-07-13T18:00",
           end_time := "2024-07-13T19:00", stage := "Main Stage",
           performance_mode := "B2B",
           custom_name := some "Artist A B2B Artist B" }] :=
  ⟨by decide, by decide,
    (C1_split_emission "2024/07/13 18:00" "2024/07/13 19:00" "Main Stage"
      "Artist A B2B Artist B" (by decide) (by decide)).trans (by decide)⟩

/-- **C2.**  For every raw name whose splitting yields at most one
non-empty piece, `group_events` emits a single `OutputEvent` whose `name`
is the suffix-stripped original combined name, with no `custom_name`, and
whose `performance_mode` is the first case-sensitive word-boundary match of
`B2B`/`B3B`/`F2F`/`VS` in the original name (`detect_mode`), or `""` if
none occurs. -/
theorem C2_single_emission (start end_ stage combined : String)
    (hlen : (splitArtists combined).length ≤ 1) :
    group_events [{ start := start, end_ := end_, name := combined, stage := stage }] =
      [{ name := clean_name combined
         time := parse_datetime start
         end_time := parse_datetime end_
         stage := stage
         performance_mode := detect_mode combined
         custom_name := none }] := by
  rw [group_events_singleton]
  unfold emitName
  by_cases hexc : pyLower (pyStrip combined) = "b2b2b2b2b"
  · simp only [if_pos hexc]
    rw [if_neg (by simp)]
  · simp only [if_neg hexc]
    rw [if_neg (by omega)]

/-- **C9 counterexample.**  `clean_name` is *not* idempotent on every
string: for `"x (live) (live)"` one application strips only the final
suffix (giving `"x (live)"`), and a second application strips again
(giving `"x"`). -/
theorem C9_counterexample :
    clean_name (clean_name "x (live) (live)") ≠ clean_name "x (live) (live)" := by
  decide

/-- **C9 (amended).**  Suffix stripping matches the trailing suffixes
`A/V` and `(live)` case-insensitively (`clean_name "DJ Test A/V" =
"DJ Test"`, `clean_name "DJ Test (Live)" = "DJ Test"`), and it is
idempotent on every string whose cleaned form does not itself end in
another strippable suffix; in general a second application can strip a
further suffix. -/
theorem C9_clean_name_suffixes (s : String)
    (h : subSuffix (clean_name s).data = (clean_name s).data) :
    clean_name "DJ Test A/V" = "DJ Test" ∧
      clean_name "DJ Test (Live)" = "DJ Test" ∧
      clean_name (clean_name s) = clean_name s := by
  refine ⟨by decide, by decide, ?_⟩
  show pyStrip ⟨subSuffix (clean_name s).data⟩ = clean_name s
  rw [h]
  show pyStrip (clean_name s) = clean_name s
  unfold clean_name
  rw [pyStrip_idem]

/-- Witness for C9 (amended) at the spec's example `"DJ Test A/V"`. -/
theorem C9_clean_name_suffixes_witness :
    subSuffix (clean_name "DJ Test A/V").data = (clean_name "DJ Test A/V").data ∧
      clean_name (clean_name "DJ Test A/V") = clean_name "DJ Test A/V" :=
  ⟨by decide, (C9_clean_name_suffixes "DJ Test A/V" (by decide)).2.2⟩

/-- Witness for C2 at the spec's example `"Solo Set VS"`. -/
theorem C2_single_emission_witness :
    (splitArtists "Solo Set VS").length ≤ 1 ∧
      group_events
          [{ start := "2024/07/13 18:00", end_ := "2024/07/13 19:00",
             name := "Solo Set VS", stage := "Main Stage" }] =
        [{ name := "Solo Set VS", time := "2024-07-13T18:00",
           end_time := "2024-07-13T19:00", stage := "Main Stage",
           performance_mode := "VS", custom_name := none }] :=
  ⟨by decide,
    (C2_single_emission "2024/07/13 18:00" "2024/07/13 19:00" "Main Stage"
      "Solo Set VS" (by decide)).trans (by decide)⟩

/-- **C5 (the code crashes instead of dropping the row).**  With all four
columns declared in the header but a data row carrying only two values,
`csv.DictReader` fills the missing `Name` and `Location` fields with
`None` (`restval`), and `row.get("Name", "").strip()` raises
`AttributeError` — the row is not silently dropped as claimed. -/
theorem C5_short_row_crash :
    load_csv ["Start,End,Name,Location", "2024/07/13 18:00,2024/07/13 19:00"] =
      .error () ∧
      pipeline ["Start,End,Name,Location", "2024/07/13 18:00,2024/07/13 19:00"] =
        .error () := by
  constructor
  · decide
  · decide

/-- **C8.**  If no processed line's trimmed content starts with `"Start,"`
while also containing `"End"`, `"Name"` and `"Location"`, then `load_csv`
reports the header error to `stderr` and returns an empty event list
without raising, and the pipeline yields zero events. -/
theorem C8_header_not_found (lines : List String)
    (h : ∀ l ∈ lines.map stripCommentLine, isHeaderLine l = false) :
    load_csv lines = .ok (["Error: CSV header row not found."], []) ∧
      pipeline lines = .ok (["Error: CSV header row not found."], []) := by
  have hidx : (lines.map stripCommentLine).findIdx? (fun l => isHeaderLine l) =
      Option.none := by
    rw [List.findIdx?_eq_none_iff]
    exact h
  constructor
  · simp only [load_csv, hidx]
  · simp only [pipeline, load_csv, hidx]
    rfl

/-- Witness for C8: a file with no header line at all. -/
theorem C8_header_not_found_witness :
    load_csv ["foo", "Start of show"] =
        .ok (["Error: CSV header row not found."], []) ∧
      pipeline ["foo", "Start of show"] =
        .ok (["Error: CSV header row not found."], []) :=
  C8_header_not_found ["foo", "Start of show"] (by decide)

/-- Appending one name to a slot of the grouped dictionary permutes the
emitted events by moving that name's block to the end. -/
theorem insertGrouped_emit_perm (k : SlotKey) (n : String)
    (g : List (SlotKey × List String)) :
    ((insertGrouped k n g).flatMap emitGroup).Perm
      (g.flatMap emitGroup ++ emitName k.1 k.2.1 k.2.2 n) := by
  induction g with
  | nil => simp [insertGrouped, emitGroup]
  | cons p rest ih =>
    obtain ⟨k', ns⟩ := p
    unfold insertGrouped
    by_cases hk : k' = k
    · subst hk
      rw [if_pos rfl]
      simp only [List.flatMap_cons, emitGroup, List.flatMap_append,
        List.flatMap_cons, List.flatMap_nil, List.append_nil, List.append_assoc]
      exact List.Perm.append_left _ (List.perm_append_comm)
    · rw [if_neg hk]
      simp only [List.flatMap_cons, List.append_assoc]
      exact List.Perm.append_left _ ih

/-- Folding rows into the grouped dictionary emits, up to permutation, the
per-row emissions appended to the accumulator's emissions. -/
theorem groupFold_emit_perm (rows : List RawRow) :
    ∀ g : List (SlotKey × List String),
      ((rows.foldl (fun g ev =>
          insertGrouped (ev.start, ev.end_, ev.stage) ev.name g) g).flatMap
        emitGroup).Perm
        (g.flatMap emitGroup ++ rows.flatMap emitRow) := by
  induction rows with
  | nil => intro g; simp
  | cons r rs ih =>
    intro g
    simp only [List.foldl_cons, List.flatMap_cons]
    refine (ih _).trans ?_
    rw [← List.append_assoc]
    exact (insertGrouped_emit_perm _ _ g).append_right _

theorem charToNat_inj {a b : Char} (h : a.toNat = b.toNat) : a = b :=
  Char.eq_of_val_eq (UInt32.toNat.inj h)

theorem listLt_irrefl : ∀ l : List Char, listLt l l = false
  | [] => rfl
  | a :: as => by simp [listLt, listLt_irrefl as]

theorem listLt_asymm : ∀ l₁ l₂ : List Char, listLt l₁ l₂ = true → listLt l₂ l₁ = false := by
  intro l₁
  induction l₁ with
  | nil =>
    intro l₂ h
    cases l₂ with
    | nil => simp [listLt] at h
    | cons b bs => rfl
  | cons a as ih =>
    intro l₂ h
    cases l₂ with
    | nil => simp [listLt] at h
    | cons b bs =>
      unfold listLt at h ⊢
      by_cases hab : a = b
      · subst hab
        rw [if_pos rfl] at h ⊢
        exact ih bs h
      · rw [if_neg hab] at h
        rw [if_neg (fun hba => hab hba.symm)]
        simp only [decide_eq_true_eq] at h
        simp only [decide_eq_false_iff_not]
        omega

theorem listLt_connex : ∀ l₁ l₂ : List Char,
    listLt l₁ l₂ = false → listLt l₂ l₁ = false → l₁ = l₂ := by
  intro l₁
  induction l₁ with
  | nil =>
    intro l₂ h1 h2
    cases l₂ with
    | nil => rfl
    | cons b bs => simp [listLt] at h1
  | cons a as ih =>
    intro l₂ h1 h2
    cases l₂ with
    | nil => simp [listLt] at h2
    | cons b bs =>
      unfold listLt at h1 h2
      by_cases hab : a = b
      · subst hab
        rw [if_pos rfl] at h1 h2
        rw [ih bs h1 h2]
      · rw [if_neg hab] at h1
        rw [if_neg (fun h => hab h.symm)] at h2
        simp only [decide_eq_false_iff_not] at h1 h2
        have : a.toNat = b.toNat := by omega
        exact absurd (charToNat_inj this) hab

theorem listLt_trans : ∀ l₁ l₂ l₃ : List Char,
    listLt l₁ l₂ = true → listLt l₂ l₃ = true → listLt l₁ l₃ = true := by
  intro l₁
  induction l₁ with
  | nil =>
    intro l₂ l₃ h1 h2
    cases l₃ with
    | cons c cs => rfl
    | nil =>
      cases l₂ with
      | nil => simp [listLt] at h2
      | cons b bs => simp [listLt] at h2
  | cons a as ih =>
    intro l₂ l₃ h1 h2
    cases l₂ with
    | nil => simp [listLt] at h1
    | cons b bs =>
      cases l₃ with
      | nil => simp [listLt] at h2
      | cons c cs =>
        unfold listLt at h1 h2 ⊢
        by_cases hab : a = b <;> by_cases hbc : b = c
        · subst hab; subst hbc
          rw [if_pos rfl] at h1 h2 ⊢
          exact ih bs cs h1 h2
        · subst hab
          rw [if_pos rfl] at h1
          rw [if_neg hbc] at h2 ⊢
          exact h2
        · subst hbc
          rw [if_pos rfl] at h2
          rw [if_neg hab] at h1 ⊢
          exact h1
        · rw [if_neg hab] at h1
          rw [if_neg hbc] at h2
          simp only [decide_eq_true_eq] at h1 h2
          by_cases hac : a = c
          · exfalso; subst hac; omega
          · rw [if_neg hac]
            simp only [decide_eq_true_eq]
            omega

theorem strLt_asymm {a b : String} (h : strLt a b = true) : strLt b a = false :=
  listLt_asymm _ _ h

theorem strLt_connex {a b : String} (h1 : strLt a b = false) (h2 : strLt b a = false) :
    a = b :=
  String.ext (listLt_connex _ _ h1 h2)

theorem strLt_irrefl (a : String) : strLt a a = false :=
  listLt_irrefl _

theorem strLe_refl (a : String) : strLe a a = true := by
  simp [strLe]

theorem strLe_trans {a b c : String} (h1 : strLe a b = true) (h2 : strLe b c = true) :
    strLe a c = true := by
  simp only [strLe, Bool.or_eq_true, decide_eq_true_eq] at h1 h2 ⊢
  rcases h1 with h1 | rfl
  · rcases h2 with h2 | rfl
    · exact Or.inl (listLt_trans _ _ _ h1 h2)
    · exact Or.inl h1
  · exact h2

theorem strLe_total (a b : String) : strLe a b = true ∨ strLe b a = true := by
  by_cases h1 : strLt a b = true
  · exact Or.inl (by simp [strLe, h1])
  · by_cases h2 : strLt b a = true
    · exact Or.inr (by simp [strLe, h2])
    · have h1' : strLt a b = false := by simpa using h1
      have h2' : strLt b a = false := by simpa using h2
      exact Or.inl (by simp [strLe, strLt_connex h1' h2'])

instance : IsTrans OutputEvent keyLE :=
  ⟨by
    intro a b c hab hbc
    unfold keyLE at hab hbc ⊢
    rcases hab with h1 | ⟨e1, h1'⟩ <;> rcases hbc with h2 | ⟨e2, h2'⟩
    · exact Or.inl (listLt_trans _ _ _ h1 h2)
    · exact Or.inl (e2 ▸ h1)
    · exact Or.inl (e1 ▸ h2)
    · exact Or.inr ⟨e1.trans e2, strLe_trans h1' h2'⟩⟩

instance : IsTotal OutputEvent keyLE :=
  ⟨by
    intro a b
    by_cases h1 : strLt a.time b.time = true
    · exact Or.inl (Or.inl h1)
    · by_cases h2 : strLt b.time a.time = true
      · exact Or.inr (Or.inl h2)
      · have h1' : strLt a.time b.time = false := by simpa using h1
        have h2' : strLt b.time a.time = false := by simpa using h2
        have e := strLt_connex h1' h2'
        rcases strLe_total a.stage b.stage with hs | hs
        · exact Or.inl (Or.inr ⟨e, hs⟩)
        · exact Or.inr (Or.inr ⟨e.symm, hs⟩)⟩

/-- The sorted order rules out a strictly smaller key further right. -/
theorem keyLE_not_keyLT {a b : OutputEvent} (hle : keyLE a b) : ¬ keyLT b a := by
  intro hlt
  unfold keyLE at hle
  unfold keyLT at hlt
  rcases hle with h1 | ⟨e1, h1'⟩ <;> rcases hlt with h2 | ⟨e2, h2'⟩
  · rw [strLt_asymm h1] at h2
    exact Bool.noConfusion h2
  · rw [e2] at h1
    rw [strLt_irrefl] at h1
    exact Bool.noConfusion h1
  · rw [e1] at h2
    rw [strLt_irrefl] at h2
    exact Bool.noConfusion h2
  · simp only [strLe, Bool.or_eq_true, decide_eq_true_eq] at h1'
    rcases h1' with h1' | h1'
    · rw [strLt_asymm h1'] at h2'
      exact Bool.noConfusion h2'
    · rw [h1', strLt_irrefl] at h2'
      exact Bool.noConfusion h2'

/-- **C4.**  In the final output sequence, for every pair of records `A`
and `B`, `A` precedes `B` whenever `A`'s `(time, stage)` key is
lexicographically (strictly) less than `B`'s — equivalently, no record is
followed by one with a strictly smaller key — and records with equal
`(time, stage)` keys keep their relative emission order (the sort is
stable: filtering the output by any fixed key gives exactly the filter of
the input). -/
theorem C4_sort_order_and_stability (l : List OutputEvent) :
    (sortEvents l).Pairwise (fun a b => ¬ keyLT b a) ∧
      ∀ t st : String,
        (sortEvents l).filter (fun e => decide (e.time = t ∧ e.stage = st)) =
          l.filter (fun e => decide (e.time = t ∧ e.stage = st)) := by
  constructor
  · exact (List.sorted_insertionSort keyLE l).imp keyLE_not_keyLT
  · intro t st
    set p : OutputEvent → Bool := fun e => decide (e.time = t ∧ e.stage = st) with hp
    have hpair : (l.filter p).Pairwise keyLE := by
      apply List.pairwise_of_forall_mem_list
      intro a ha b hb
      have ha' := of_decide_eq_true (List.mem_filter.mp ha).2
      have hb' := of_decide_eq_true (List.mem_filter.mp hb).2
      exact Or.inr ⟨ha'.1.trans hb'.1.symm, ha'.2.trans hb'.2.symm ▸ strLe_refl _⟩
    have h1 : List.Sublist (l.filter p) (List.insertionSort keyLE l) :=
      List.sublist_insertionSort hpair (List.filter_sublist l)
    have h2 : List.Perm ((List.insertionSort keyLE l).filter p) (l.filter p) :=
      (List.perm_insertionSort keyLE l).filter p
    have h3 : (l.filter p).filter p = l.filter p :=
      List.filter_eq_self.mpr (fun a ha => (List.mem_filter.mp ha).2)
    have h4 : List.Sublist (l.filter p) ((List.insertionSort keyLE l).filter p) := by
      have := h1.filter p
      rwa [h3] at this
    exact (h4.eq_of_length h2.length_eq.symm).symm

theorem group_events_perm_flat (rows : List RawRow) :
    (group_events rows).Perm (rows.flatMap emitRow) := by
  have h := groupFold_emit_perm rows []
  simpa [group_events, groupPairs] using h

/-- **C10.**  Grouping by the `(start, end, stage)` key is
content-neutral: the multiset of records produced by `group_events` equals
the multiset obtained by applying the split/normalize/emit step to each raw
row directly, without grouping; grouping only permutes the pre-sort
emission order. -/
theorem C10_grouping_content_neutral (rows : List RawRow) :
    (group_events rows).Perm (rows.flatMap emitRow) :=
  group_events_perm_flat rows

theorem except_bind_ok {A B : Type} (a : A) (f : A → Except Unit B) :
    (Except.ok a >>= f) = f a := rfl

theorem except_bind_error {A B : Type} (f : A → Except Unit B) :
    ((Except.error () : Except Unit A) >>= f) = Except.error () := rfl

/-- A successful `row.get(k, "").strip()` yields a strip fixed point. -/
theorem pyGetStrip_ok {rec : List (String × Option String)} {k x : String}
    (h : pyGetStrip rec k = .ok x) : pyStrip x = x := by
  unfold pyGetStrip at h
  cases hd : dictGet rec k with
  | none =>
    rw [hd] at h
    obtain rfl := (Except.ok.inj h).symm
    decide
  | some v =>
    cases v with
    | none =>
      rw [hd] at h
      exact Except.noConfusion h
    | some w =>
      rw [hd] at h
      obtain rfl := (Except.ok.inj h).symm
      exact pyStrip_idem w

/-- A row surviving the validity filter has a stripped, non-empty name. -/
theorem rowExtract_ok_some {rec : List (String × Option String)} {row : RawRow}
    (h : rowExtract rec = .ok (some row)) :
    pyStrip row.name = row.name ∧ row.name ≠ "" := by
  unfold rowExtract at h
  cases hS : pyGetStrip rec "Start" with
  | error e =>
    rw [hS] at h
    cases e
    rw [except_bind_error] at h
    exact Except.noConfusion h
  | ok s1 =>
    rw [hS, except_bind_ok] at h
    cases hE : pyGetStrip rec "End" with
    | error e =>
      rw [hE] at h
      cases e
      rw [except_bind_error] at h
      exact Except.noConfusion h
    | ok s2 =>
      rw [hE, except_bind_ok] at h
      cases hN : pyGetStrip rec "Name" with
      | error e =>
        rw [hN] at h
        cases e
        rw [except_bind_error] at h
        exact Except.noConfusion h
      | ok s3 =>
        rw [hN, except_bind_ok] at h
        cases hL : pyGetStrip rec "Location" with
        | error e =>
          rw [hL] at h
          cases e
          rw [except_bind_error] at h
          exact Except.noConfusion h
        | ok s4 =>
          rw [hL, except_bind_ok] at h
          by_cases hc : (s1 = "" || s2 = "" || s3 = "" || s4 = "") = true
          · rw [if_pos hc] at h
            exact Option.noConfusion (Except.ok.inj h)
          · rw [if_neg hc] at h
            obtain rfl := (Option.some.inj (Except.ok.inj h)).symm
            simp only [Bool.or_eq_true, decide_eq_true_eq] at hc
            push_neg at hc
            refine ⟨pyGetStrip_ok hN, ?_⟩
            tauto

/-- Every row produced by the `DictReader` loop has a stripped, non-empty
name. -/
theorem readRows_ok {fields : List String} :
    ∀ {ls : List String} {rows : List RawRow}, readRows fields ls = .ok rows →
      ∀ r ∈ rows, pyStrip r.name = r.name ∧ r.name ≠ "" := by
  intro ls
  induction ls with
  | nil =>
    intro rows h
    obtain rfl := (Except.ok.inj h).symm
    intro r hr
    exact absurd hr (List.not_mem_nil r)
  | cons l rest ih =>
    intro rows h
    unfold readRows at h
    by_cases hv : (parseCsvLine l).isEmpty = true
    · rw [if_pos hv] at h
      exact ih h
    · rw [if_neg hv] at h
      cases hre : rowExtract (mkRecord fields (parseCsvLine l)) with
      | error e =>
        rw [hre] at h
        cases e
        rw [except_bind_error] at h
        exact Except.noConfusion h
      | ok r? =>
        rw [hre, except_bind_ok] at h
        cases hrr : readRows fields rest with
        | error e =>
          rw [hrr] at h
          cases e
          rw [except_bind_error] at h
          exact Except.noConfusion h
        | ok rs =>
          rw [hrr, except_bind_ok] at h
          have hrows := (Except.ok.inj h).symm
          cases r? with
          | none =>
            intro r hr
            rw [hrows] at hr
            exact ih hrr r hr
          | some r0 =>
            intro r hr
            rw [hrows] at hr
            rcases List.mem_cons.mp hr with rfl | hr2
            · exact rowExtract_ok_some hre
            · exact ih hrr r hr2

/-- Every row returned by `load_csv` has a stripped, non-empty name. -/
theorem load_csv_rows {lines msgs : List String} {rows : List RawRow}
    (h : load_csv lines = .ok (msgs, rows)) :
    ∀ r ∈ rows, pyStrip r.name = r.name ∧ r.name ≠ "" := by
  simp only [load_csv] at h
  split at h
  · have hp := Except.ok.inj h
    have hrows : ([] : List RawRow) = rows := congrArg Prod.snd hp
    intro r hr
    rw [← hrows] at hr
    exact absurd hr (List.not_mem_nil r)
  · split at h
    · have hp := Except.ok.inj h
      have hrows : ([] : List RawRow) = rows := congrArg Prod.snd hp
      intro r hr
      rw [← hrows] at hr
      exact absurd hr (List.not_mem_nil r)
    · rename_i header rest heq
      cases hrr : readRows (parseCsvLine header) rest with
      | error e =>
        rw [hrr] at h
        exact absurd h (by simp [Except.map])
      | ok evs =>
        rw [hrr] at h
        simp only [Except.map] at h
        have hp := Except.ok.inj h
        have hrows : evs = rows := congrArg Prod.snd hp
        intro r hr
        rw [← hrows] at hr
        exact readRows_ok hrr r hr

/-- **C6.**  Every `OutputEvent` in the final output has a non-empty name:
split pieces that become empty after suffix stripping are dropped before
emission, and in the non-split branch the suffix-stripped original name —
non-empty after trimming at row extraction — is never empty. -/
theorem C6_nonempty_names (lines msgs : List String) (evs : List OutputEvent)
    (h : pipeline lines = .ok (msgs, evs)) : ∀ e ∈ evs, e.name ≠ "" := by
  unfold pipeline at h
  cases hl : load_csv lines with
  | error e =>
    rw [hl] at h
    exact absurd h (by simp [Except.map])
  | ok p =>
    obtain ⟨msgs0, rows⟩ := p
    rw [hl] at h
    simp only [Except.map] at h
    have hp := Except.ok.inj h
    have hevs : sortEvents (group_events rows) = evs := congrArg Prod.snd hp
    have hrowfacts := load_csv_rows hl
    intro e he
    rw [← hevs] at he
    have he2 : e ∈ group_events rows :=
      (List.perm_insertionSort keyLE (group_events rows)).mem_iff.mp he
    have he3 : e ∈ rows.flatMap emitRow :=
      (group_events_perm_flat rows).mem_iff.mp he2
    obtain ⟨r, hr, hre⟩ := List.mem_flatMap.mp he3
    exact emitName_names (hrowfacts r hr).1 (hrowfacts r hr).2 e hre

/-- Witness for C6 on a concrete split row. -/
theorem C6_nonempty_names_witness :
    ({ name := "A", time := "", end_time := "", stage := "M",
       performance_mode := "B2B", custom_name := some "A B2B B" } :
      OutputEvent).name ≠ "" :=
  C6_nonempty_names ["Start,End,Name,Location", "1,2,A B2B B,M"] []
    [{ name := "A", time := "", end_time := "", stage := "M",
       performance_mode := "B2B", custom_name := some "A B2B B" },
     { name := "B", time := "", end_time := "", stage := "M",
       performance_mode := "B2B", custom_name := some "A B2B B" }]
    (by decide) _ (by simp)

theorem ws_not_word {c : Char} (h : pyIsSpace c = true) : isWordChar c = false := by
  simp only [pyIsSpace, Bool.or_eq_true, decide_eq_true_eq] at h
  rcases h with ((((rfl | rfl) | rfl) | rfl) | rfl) | rfl <;> decide

theorem modeAt_ws {c : Char} (h : pyIsSpace c = true) (l : List Char) :
    modeAt (c :: l) = none := by
  simp only [pyIsSpace, Bool.or_eq_true, decide_eq_true_eq] at h
  rcases h with ((((rfl | rfl) | rfl) | rfl) | rfl) | rfl <;>
    rcases l with _ | ⟨c2, _ | ⟨c3, rest⟩⟩ <;> simp [modeAt]

/-- The mode scan skips a whitespace prefix. -/
theorem modeScan_ws_skip {w : List Char} (hw : ∀ x ∈ w, pyIsSpace x = true)
    (rest : List Char) : modeScan false (w ++ rest) = modeScan false rest := by
  induction w with
  | nil => rfl
  | cons c w1 ih =>
    have hc := hw c (List.mem_cons_self _ _)
    rw [List.cons_append]
    simp only [modeScan, modeAt_ws hc, ws_not_word hc]
    exact ih (fun x hx => hw x (List.mem_cons_of_mem _ hx)) 

/-- The mode scan finds nothing in an all-whitespace string. -/
theorem modeScan_ws_all {w : List Char} (hw : ∀ x ∈ w, pyIsSpace x = true) :
    ∀ b, modeScan b w = none := by
  induction w with
  | nil => intro b; rfl
  | cons c w1 ih =>
    intro b
    have hc := hw c (List.mem_cons_self _ _)
    have htl := ih (fun x hx => hw x (List.mem_cons_of_mem _ hx))
    cases b <;> simp [modeScan, modeAt_ws hc, ws_not_word hc, htl]

theorem pyToLower_eq_b {c : Char} (h : pyToLower c = 'b') : c = 'B' ∨ c = 'b' := by
  unfold pyToLower at h
  split at h <;> simp_all

theorem pyToLower_eq_two {c : Char} (h : pyToLower c = '2') : c = '2' := by
  unfold pyToLower at h
  split at h <;> simp_all

theorem word_of_lower_b {c : Char} (h : pyToLower c = 'b') : isWordChar c = true := by
  rcases pyToLower_eq_b h with rfl | rfl <;> decide

/-- Decomposition of a string as whitespace padding around its strip. -/
theorem stripList_decomp (l : List Char) :
    ∃ w1 w2, l = w1 ++ stripList l ++ w2 ∧ (∀ x ∈ w1, pyIsSpace x = true) ∧
      (∀ x ∈ w2, pyIsSpace x = true) := by
  have hsplit : ∀ m : List Char,
      m = (m.reverse.dropWhile pyIsSpace).reverse ++ (m.reverse.takeWhile pyIsSpace).reverse := by
    intro m
    rw [← List.reverse_append, List.takeWhile_append_dropWhile, List.reverse_reverse]
  refine ⟨l.takeWhile pyIsSpace,
    ((l.dropWhile pyIsSpace).reverse.takeWhile pyIsSpace).reverse, ?_, ?_, ?_⟩
  · conv_lhs => rw [← List.takeWhile_append_dropWhile (p := pyIsSpace) (l := l)]
    rw [List.append_assoc]
    congr 1
    exact hsplit (l.dropWhile pyIsSpace)
  · exact fun x hx => List.mem_takeWhile_imp hx
  · intro x hx
    exact List.mem_takeWhile_imp (List.mem_reverse.mp hx)

/-- The case-sensitive mode pattern never matches inside any whitespace
padding and casing of the literal `b2b2b2b2b`: every candidate position is
ruled out by a word boundary or by the alternatives' content. -/
theorem detect_mode_b2b {s : String} (h : pyLower (pyStrip s) = "b2b2b2b2b") :
    detect_mode s = "" := by
  have hmap : (stripList s.data).map pyToLower = "b2b2b2b2b".data :=
    congrArg String.data h
  have hlendata : ("b2b2b2b2b".data : List Char) =
      ['b', '2', 'b', '2', 'b', '2', 'b', '2', 'b'] := rfl
  rw [hlendata] at hmap
  have hlen : (stripList s.data).length = 9 := by
    have := congrArg List.length hmap
    simpa using this
  obtain ⟨t0, t1, t2, t3, t4, t5, t6, t7, t8, hts⟩ :
      ∃ t0 t1 t2 t3 t4 t5 t6 t7 t8,
        stripList s.data = [t0, t1, t2, t3, t4, t5, t6, t7, t8] := by
    rcases hs9 : stripList s.data with
      _ | ⟨a0, _ | ⟨a1, _ | ⟨a2, _ | ⟨a3, _ | ⟨a4, _ | ⟨a5, _ | ⟨a6, _ | ⟨a7, _ | ⟨a8, tl⟩⟩⟩⟩⟩⟩⟩⟩⟩
    all_goals rw [hs9] at hlen
    all_goals simp only [List.length_cons, List.length_nil] at hlen
    all_goals first
      | omega
      | (have htl : tl = [] := List.eq_nil_of_length_eq_zero (by omega)
         exact ⟨a0, a1, a2, a3, a4, a5, a6, a7, a8, by rw [htl]⟩)
  rw [hts] at hmap
  simp only [List.map_cons, List.map_nil, List.cons.injEq, and_true] at hmap
  obtain ⟨h0, h1, h2, h3, h4, h5, h6, h7, h8⟩ := hmap
  obtain rfl := pyToLower_eq_two h1
  obtain rfl := pyToLower_eq_two h3
  obtain rfl := pyToLower_eq_two h5
  obtain rfl := pyToLower_eq_two h7
  obtain ⟨w1, w2, hdec, hw1, hw2⟩ := stripList_decomp s.data
  rw [hts] at hdec
  have h2w : isWordChar '2' = true := by decide
  have ht0w := word_of_lower_b h0
  have ht2w := word_of_lower_b h2
  have ht4w := word_of_lower_b h4
  have ht6w := word_of_lower_b h6
  have ht8w := word_of_lower_b h8
  have hnone := modeScan_ws_all hw2
  have hscan : modeScan false s.data = none := by
    rw [hdec, List.append_assoc, modeScan_ws_skip hw1]
    simp [modeScan, modeAt, boundaryOk, h2w, ht0w, ht2w, ht4w, ht6w, ht8w, hnone]
  unfold detect_mode
  rw [hscan]
  rfl

/-- **C7.**  For every raw name that, trimmed and lowercased, equals the
literal `b2b2b2b2b` (any casing, any surrounding whitespace), the name is
never split: exactly one `OutputEvent` is emitted whose name is the
suffix-stripped original, with `performance_mode = ""` and no
`custom_name`. -/
theorem C7_b2b_literal (start end_ stage combined : String)
    (h : pyLower (pyStrip combined) = "b2b2b2b2b") :
    group_events [{ start := start, end_ := end_, name := combined, stage := stage }] =
      [{ name := clean_name combined
         time := parse_datetime start
         end_time := parse_datetime end_
         stage := stage
         performance_mode := ""
         custom_name := none }] := by
  rw [group_events_singleton]
  unfold emitName
  rw [if_pos h]
  rw [if_neg (by simp)]
  rw [detect_mode_b2b h]

/-- Witness for C7 at the spec's literal example. -/
theorem C7_b2b_literal_witness :
    pyLower (pyStrip "B2B2B2B2B") = "b2b2b2b2b" ∧
      group_events
          [{ start := "2024/07/13 18:00", end_ := "2024/07/13 19:00",
             name := "B2B2B2B2B", stage := "Main Stage" }] =
        [{ name := "B2B2B2B2B", time := "2024-07-13T18:00",
           end_time := "2024-07-13T19:00", stage := "Main Stage",
           performance_mode := "", custom_name := none }] :=
  ⟨by decide,
    (C7_b2b_literal "2024/07/13 18:00" "2024/07/13 19:00" "Main Stage"
      "B2B2B2B2B" (by decide)).trans (by decide)⟩

end ExtractEvents
